import Mathlib

/-!
Verification development for the mossy-stone-brick-monster-egg bot:
a shallow embedding of the durable store (`persistent.rs`, and the older
duplicate in `main.rs`), the emoji identity and selector parser
(`reaction_roles/selector.rs`, `reaction_roles.rs`), the reaction
reconciler (`apply_group_reactions`), the reaction event handlers
(`add_reaction` / `remove_reaction`), and the persisted-role state machine
(`persistent_roles.rs`).

Rust strings are modeled as `List Char`; `u64` values as `Nat` (none of the
modeled operations can overflow 64 bits on the inputs the program feeds
them, and no arithmetic beyond rendering/parsing decimal digits occurs);
`HashMap`/`HashSet` are modeled as association lists, lookup functions or
`Finset`s as fits each structure's use.  The Unicode `\p{Emoji}` character
table used by the selector parser's regex is external data and is passed
as an explicit `Char → Bool` parameter.
-/

set_option maxHeartbeats 1000000
set_option linter.unusedVariables false

namespace Mossy

/-- Decimal rendering of an unsigned integer, modeling the `format!` of a
`u64` id when `Emoji` builds a custom-emoji mention string.  The explicit
fuel keeps the recursion structural; fuel `n + 1` always suffices for `n`. -/
def natCharsAux : Nat → Nat → List Char
  | 0, _ => []
  | fuel + 1, n =>
    if n < 10 then [Nat.digitChar n]
    else natCharsAux fuel (n / 10) ++ [Nat.digitChar (n % 10)]

/-- Decimal rendering of `n` (the `Display` form of a `u64`). -/
def natChars (n : Nat) : List Char := natCharsAux (n + 1) n

/-- Numeric value of an all-digit string, modeling `str::parse::<u64>` on the
strings the program feeds it. -/
def strVal (l : List Char) : Nat := l.foldl (fun a c => 10 * a + (c.toNat - 48)) 0

/-- Reaction payload shapes accepted by the `Emoji` constructor in
`selector.rs` (`ReactionType::Custom` and `ReactionType::Unicode`; the
remaining platform variants hit the `panic!` arm and are outside the model). -/
inductive ReactionType where
  | custom (animated : Bool) (id : Nat) (name : Option (List Char))
  | unicode (chars : List Char)
  deriving DecidableEq

/-- `Emoji` from `selector.rs` (and its verbatim duplicate in
`reaction_roles.rs`): a newtype over the rendered string, with derived
(string) equality and hashing. -/
structure Emoji where
  chars : List Char
  deriving DecidableEq

/-- `impl From<ReactionType> for Emoji`: custom emoji render as
`<:name:id>` (or `<:id>` without a name), unicode emoji keep their
character sequence. -/
def Emoji.fromReaction : ReactionType → Emoji
  | .custom _ id (some name) => ⟨'<' :: ':' :: (name ++ ':' :: (natChars id ++ ['>']))⟩
  | .custom _ id none => ⟨'<' :: ':' :: (natChars id ++ ['>'])⟩
  | .unicode s => ⟨s⟩

/-- Strip the expected opening characters from a string, returning the rest. -/
def dropStart : List Char → List Char → Option (List Char)
  | [], cs => some cs
  | _ :: _, [] => none
  | p :: ps, c :: cs => if c = p then dropStart ps cs else none

/-- Split at the first occurrence of `sep`, returning the (sep-free) part
before it and the part after it. -/
def splitFirst (sep : Char) : List Char → Option (List Char × List Char)
  | [] => none
  | c :: rest =>
    if c = sep then some ([], rest)
    else
      match splitFirst sep rest with
      | some (a, b) => some (c :: a, b)
      | none => none

/-- Model of the external `serenity::utils::parse_emoji` /
`EmojiIdentifier::from_str` at its interface (spec: the platform
custom-emoji mention syntax): accepts `<:name:id>` where the name contains
no `>` (the name is `:`-free by the first-`:` split) and the id is a
nonempty all-digit string. -/
def parseEmojiMention (cs : List Char) : Option (List Char × Nat) :=
  match dropStart ['<', ':'] cs with
  | none => none
  | some rest =>
    match splitFirst ':' rest with
    | none => none
    | some (name, after) =>
      if '>' ∈ name then none
      else if after.getLast? = some '>' then
        let ds := after.dropLast
        if ds ≠ [] ∧ ds.all Char.isDigit then some (name, strVal ds) else none
      else none

/-- `impl Into<ReactionType> for Emoji`: re-parse the stored string as a
custom-emoji mention (always with `animated: false`), else treat it as a
unicode emoji. -/
def Emoji.intoReactionType (e : Emoji) : ReactionType :=
  match parseEmojiMention e.chars with
  | some (name, id) => .custom false id (some name)
  | none => .unicode e.chars

/-- Body of a `[^>]*>` regex tail: the characters up to and including the
first `>`, together with the remainder of the string. -/
def tokenBody : List Char → Option (List Char × List Char)
  | [] => none
  | c :: rest =>
    if c = '>' then some (['>'], rest)
    else
      match tokenBody rest with
      | some (b, r) => some (c :: b, r)
      | none => none

/-- Leftmost, non-overlapping matches of the pattern `op ++ [^>]* ++ ">"`
(the shape of both the `<@&([^>]*)>` and `<:([^>]*>)` regexes used by
`parse_group`), with explicit fuel to keep the recursion structural;
fuel `cs.length` always suffices. -/
def findTokensAux (op : List Char) : Nat → List Char → List (List Char)
  | 0, _ => []
  | _, [] => []
  | fuel + 1, c :: rest =>
    match dropStart op (c :: rest) with
    | some afterOp =>
      match tokenBody afterOp with
      | some (body, restAfter) => (op ++ body) :: findTokensAux op fuel restAfter
      | none => findTokensAux op fuel rest
    | none => findTokensAux op fuel rest

/-- `find_iter` of the `op ++ [^>]* ++ ">"` pattern over a line. -/
def findTokens (op : List Char) (cs : List Char) : List (List Char) :=
  findTokensAux op cs.length cs

/-- Split a string at every occurrence of `sep` (keeping empty pieces). -/
def splitOnChar (sep : Char) : List Char → List (List Char)
  | [] => [[]]
  | c :: rest =>
    match splitOnChar sep rest with
    | [] => [[]]
    | h :: t => if c = sep then [] :: h :: t else (c :: h) :: t

/-- Model of `str::lines`: split on `'\n'` and trim one trailing `'\r'`
from each piece.  (A trailing final newline yields one extra empty piece
here; an empty line contributes no tokens, so nothing downstream changes.) -/
def splitLines (cs : List Char) : List (List Char) :=
  (splitOnChar '\n' cs).map fun l => if l.getLast? = some '\r' then l.dropLast else l

/-- Model of the external `serenity::utils::parse_role` at its interface
(spec: the platform role-reference syntax `<@&id>`): strip `<@&` and the
closing `>` and parse the remaining nonempty all-digit string. -/
def parseRoleTok (tok : List Char) : Option Nat :=
  match dropStart ['<', '@', '&'] tok with
  | none => none
  | some rest =>
    if rest.getLast? = some '>' then
      let ds := rest.dropLast
      if ds ≠ [] ∧ ds.all Char.isDigit then some (strVal ds) else none
    else none

/-- The `roles` iterator of `parse_group` on one line: every `<@&([^>]*)>`
match, filtered through `parse_role`. -/
def lineRoles (line : List Char) : List Nat :=
  (findTokens ['<', '@', '&'] line).filterMap parseRoleTok

/-- The `custom_emoji` iterator of `parse_group` on one line: every
`<:([^>]*>)` match, filtered through `parse_emoji` and rebuilt as a
`ReactionType::Custom { animated: false, id, name: Some(name) }` identity. -/
def lineCustomEmoji (line : List Char) : List Emoji :=
  (findTokens ['<', ':'] line).filterMap fun tok =>
    (parseEmojiMention tok).map fun p => Emoji.fromReaction (.custom false p.2 (some p.1))

/-- The `unicode_emoji` iterator of `parse_group` on one line: each
character in the `[\p{Emoji}--\p{Digit}]` class, as a unicode identity.
`ep` is the external Unicode `\p{Emoji}` table. -/
def lineUnicodeEmoji (ep : Char → Bool) (line : List Char) : List Emoji :=
  (line.filter fun c => ep c && !c.isDigit).map fun c => Emoji.fromReaction (.unicode [c])

/-- One line of `parse_group`: the first extracted role paired with the
first extracted emoji, all custom-emoji matches taking priority over all
unicode matches (the `chain`); `none` when either is missing. -/
def linePair (ep : Char → Bool) (line : List Char) : Option (Emoji × Nat) :=
  match (lineRoles line).head?, (lineCustomEmoji line ++ lineUnicodeEmoji ep line).head? with
  | some role, some emoji => some (emoji, role)
  | _, _ => none

/-- `parse_group` from `reaction_roles.rs` (also the per-line extraction
loop duplicated verbatim in `Selector::parse`): the pushed
`(emoji, role)` pairs in line order. -/
def parse_group (ep : Char → Bool) (content : List Char) : List (Emoji × Nat) :=
  (splitLines content).filterMap (linePair ep)

/-- The `HashMap<Emoji, RoleId>` underlying `Group` (`reaction_roles.rs`)
and `Selector` (`selector.rs`), modeled as an association list with unique
keys: `insert` replaces the value of an existing key, `get` finds the
unique entry. -/
abbrev RoleMap := List (Emoji × Nat)

/-- `HashMap::insert` on the emoji→role table. -/
def insertRole : RoleMap → Emoji → Nat → RoleMap
  | [], e, r => [(e, r)]
  | p :: t, e, r => if p.1 = e then (e, r) :: t else p :: insertRole t e r

/-- `HashMap::get` on the emoji→role table (`Group::get_role` /
`Selector::get_role`). -/
def getRole : RoleMap → Emoji → Option Nat
  | [], _ => none
  | p :: t, e => if p.1 = e then some p.2 else getRole t e

/-- `Selector::parse` (`selector.rs`): insert each line's pair into the
table in line order. -/
def Selector.parse (ep : Char → Bool) (content : List Char) : RoleMap :=
  (parse_group ep content).foldl (fun s p => insertRole s p.1 p.2) []

/-- The registry mutation performed by the `track_reactions` command:
`get_or_create_group` for the target message, then insert every
`parse_group` pair in line order (no clearing of an existing group). -/
def trackReactionsGroup (existing : Option RoleMap) (ep : Char → Bool)
    (content : List Char) : RoleMap :=
  (parse_group ep content).foldl (fun s p => insertRole s p.1 p.2) (existing.getD [])

/-- One entry of a fetched message's reaction summary: the reaction's
emoji identity and the `me` flag (whether the bot itself placed it). -/
structure MessageReaction where
  emoji : Emoji
  me : Bool
  deriving DecidableEq

/-- A reaction API call emitted by the reconciler: delete the bot's own
reaction for an emoji, or react with an emoji. -/
inductive ApiCall where
  | deleteOwn (e : Emoji)
  | react (e : Emoji)
  deriving DecidableEq

/-- The call sequence of `apply_group_reactions` (`reaction_roles.rs`)
for a registered group and a fetched message: delete every reaction
flagged `me`, then react with every key of the group. -/
def apply_group_reactions (grp : RoleMap) (reactions : List MessageReaction) :
    List ApiCall :=
  ((reactions.filter fun r => r.me).map fun r => ApiCall.deleteOwn r.emoji)
    ++ grp.map fun p => ApiCall.react p.1

/-- The set of bot-placed reactions in a message's reaction summary. -/
def botPlaced (reactions : List MessageReaction) : Finset Emoji :=
  ((reactions.filter fun r => r.me).map fun r => r.emoji).toFinset

/-- Effect of one reaction API call on the set of bot-placed reactions,
assuming the call succeeds. -/
def applyCall (s : Finset Emoji) : ApiCall → Finset Emoji
  | .deleteOwn e => s.erase e
  | .react e => insert e s

/-- Effect of a call sequence on the set of bot-placed reactions. -/
def runCalls (s : Finset Emoji) (calls : List ApiCall) : Finset Emoji :=
  calls.foldl applyCall s

/-- A role/reaction API action emitted by the reaction event handlers. -/
inductive RRAction where
  | grant (role : Nat)
  | revoke (role : Nat)
  | removeReact
  deriving DecidableEq

/-- `add_reaction` (`reaction_roles.rs`): requires both guild and user ids;
on a registered message, a mapped emoji grants the role to the fetched
member unless that member is a bot, and an unmapped emoji deletes the
reaction. -/
def add_reaction (registry : Nat → Option RoleMap) (guild user : Option Nat)
    (message : Nat) (rt : ReactionType) (memberIsBot : Bool) : List RRAction :=
  match guild, user with
  | some _, some _ =>
    match registry message with
    | some grp =>
      match getRole grp (Emoji.fromReaction rt) with
      | some role => if !memberIsBot then [.grant role] else []
      | none => [.removeReact]
    | none => []
  | _, _ => []

/-- `remove_reaction` (`reaction_roles.rs`): requires both guild and user
ids; on a registered message, a mapped emoji revokes the role from the
fetched member with no bot check; unmapped emoji are ignored. -/
def remove_reaction (registry : Nat → Option RoleMap) (guild user : Option Nat)
    (message : Nat) (rt : ReactionType) (memberIsBot : Bool) : List RRAction :=
  match guild, user with
  | some _, some _ =>
    match registry message with
    | some grp =>
      match getRole grp (Emoji.fromReaction rt) with
      | some role => [.revoke role]
      | none => []
    | none => []
  | _, _ => []

/-- The durable store of `persistent.rs`: the in-memory value, the
on-disk document, and a spy counter of file writes. -/
structure Persistent (T : Type) where
  value : T
  disk : T
  writes : Nat

/-- `Persistent::write` (`persistent.rs`): clone the previous value, apply
`f`, and write the document back only when the value changed; `f`'s result
is returned either way. -/
def Persistent.write {T R : Type} [DecidableEq T] (p : Persistent T)
    (f : T → T × R) : Persistent T × R :=
  let res := f p.value
  if p.value = res.1 then ({ p with value := res.1 }, res.2)
  else ({ value := res.1, disk := res.1, writes := p.writes + 1 }, res.2)

/-- The older durable store kept in `main.rs`. -/
structure MainPersistent (T : Type) where
  value : T
  disk : T
  writes : Nat

/-- `Persistent::write` as duplicated in `main.rs` (lines 41–53): apply
`f` and write the document back unconditionally. -/
def MainPersistent.write {T R : Type} (p : MainPersistent T)
    (f : T → T × R) : MainPersistent T × R :=
  let res := f p.value
  ({ value := res.1, disk := res.1, writes := p.writes + 1 }, res.2)

/-- `Vec::swap_remove(i)`: replace the element at `i` with the last
element and pop the last element (the call sites only use `i` within
bounds). -/
def swapRemove (l : List Nat) (i : Nat) : List Nat :=
  match l.getLast? with
  | none => l
  | some last => (l.set i last).dropLast

/-- The per-user body of the loop in `GuildState::remove_role`:
`position` of the first occurrence of the role, then `swap_remove`. -/
def removeRoleFromList (role : Nat) (roles : List Nat) : List Nat :=
  match roles.findIdx? (fun r => r == role) with
  | some i => swapRemove roles i
  | none => roles

/-- `GuildState` (`persistent_roles.rs`): the tracked roles and the
per-user snapshot lists, the user map modeled by its lookup function. -/
structure GuildState where
  roles : Finset Nat
  users : Nat → Option (List Nat)

/-- `GuildState::set_user_roles`: store a nonempty list, purge the key for
an empty one. -/
def GuildState.set_user_roles (g : GuildState) (user : Nat) (rs : List Nat) :
    GuildState :=
  if rs = [] then { g with users := fun u => if u = user then none else g.users u }
  else { g with users := fun u => if u = user then some rs else g.users u }

/-- `GuildState::add_role`: when the role is newly tracked, push it onto
the snapshot list (created if absent) of every current holder. -/
def GuildState.add_role (g : GuildState) (role : Nat)
    (users_with_role : List Nat) : GuildState :=
  if role ∈ g.roles then g
  else
    { roles := insert role g.roles
      users := users_with_role.foldl
        (fun us u => fun v => if v = u then some ((us u).getD [] ++ [role]) else us v)
        g.users }

/-- `GuildState::remove_role`: when the role was tracked, un-track it,
swap-remove its first occurrence from every snapshot list, and purge users
whose list became empty; otherwise a no-op. -/
def GuildState.remove_role (g : GuildState) (role : Nat) : GuildState :=
  if role ∈ g.roles then
    { roles := g.roles.erase role
      users := fun u =>
        match g.users u with
        | none => none
        | some l =>
          let l2 := removeRoleFromList role l
          if l2 = [] then none else some l2 }
  else g

/-- The persisted-role `State` (`persistent_roles.rs`): per-guild state,
modeled by its lookup function. -/
structure State where
  guilds : Nat → Option GuildState

/-- The role-grant calls emitted by `guild_member_addition`
(`persistent_roles.rs`): the user's snapshot for the guild (empty when the
guild or user has no entry), granted in one `add_roles` call only when
nonempty and only when the bot holds the manage-roles capability. -/
def guild_member_addition (st : State) (guild user : Nat)
    (canManageRoles : Bool) : List Nat :=
  let roles :=
    match st.guilds guild with
    | some g => (g.users user).getD []
    | none => []
  if roles = [] then [] else if canManageRoles then roles else []

/-! ### Lemmas about the decimal rendering of ids -/

theorem digitChar_sub_val : ∀ d, d < 10 → (Nat.digitChar d).toNat - 48 = d := by decide

theorem digitChar_isDigit : ∀ d, d < 10 → (Nat.digitChar d).isDigit = true := by decide

theorem strVal_concat (l : List Char) (c : Char) :
    strVal (l ++ [c]) = 10 * strVal l + (c.toNat - 48) := by
  simp [strVal, List.foldl_append]

theorem natCharsAux_strVal : ∀ fuel n, n < fuel → strVal (natCharsAux fuel n) = n := by
  intro fuel
  induction fuel with
  | zero => intro n h; exact absurd h (Nat.not_lt_zero n)
  | succ fuel ih =>
    intro n h
    by_cases h10 : n < 10
    · simp [natCharsAux, h10, strVal]
      exact digitChar_sub_val n h10
    · have hdiv : n / 10 < fuel := by
        have : n / 10 < n := Nat.div_lt_self (by omega) (by omega)
        omega
      rw [natCharsAux, if_neg h10, strVal_concat, ih (n / 10) hdiv,
        digitChar_sub_val (n % 10) (Nat.mod_lt n (by omega))]
      omega

theorem natChars_strVal (n : Nat) : strVal (natChars n) = n :=
  natCharsAux_strVal (n + 1) n (Nat.lt_succ_self n)

theorem natChars_inj {a b : Nat} (h : natChars a = natChars b) : a = b := by
  have ha := natChars_strVal a
  rw [h, natChars_strVal b] at ha
  omega

theorem natCharsAux_digit : ∀ fuel n c, c ∈ natCharsAux fuel n → c.isDigit = true := by
  intro fuel
  induction fuel with
  | zero => intro n c h; simp [natCharsAux] at h
  | succ fuel ih =>
    intro n c h
    by_cases h10 : n < 10
    · rw [natCharsAux, if_pos h10] at h
      simp at h
      rw [h]
      exact digitChar_isDigit n h10
    · rw [natCharsAux, if_neg h10] at h
      simp at h
      rcases h with h | h
      · exact ih _ _ h
      · rw [h]
        exact digitChar_isDigit _ (Nat.mod_lt n (by omega))

theorem natChars_digit {n : Nat} {c : Char} (h : c ∈ natChars n) : c.isDigit = true :=
  natCharsAux_digit (n + 1) n c h

theorem natChars_ne_nil (n : Nat) : natChars n ≠ [] := by
  simp only [natChars, natCharsAux]
  split <;> simp

/-! ### Lemmas about custom-emoji mention strings -/

theorem dropStart_cons2 (a b : Char) (rest : List Char) :
    dropStart [a, b] (a :: b :: rest) = some rest := by
  simp [dropStart]

theorem splitFirst_no_sep {sep : Char} :
    ∀ {n : List Char}, sep ∉ n → ∀ t, splitFirst sep (n ++ sep :: t) = some (n, t) := by
  intro n
  induction n with
  | nil => intro _ t; simp [splitFirst]
  | cons c cs ih =>
    intro h t
    have h1 : ¬(c = sep) := fun hc => h (by simp [hc])
    have h2 : sep ∉ cs := fun hc => h (by simp [hc])
    simp only [List.cons_append, splitFirst, if_neg h1, List.append_eq, ih h2]

theorem parseEmojiMention_mention {name : List Char} {id : Nat}
    (h1 : ':' ∉ name) (h2 : '>' ∉ name) :
    parseEmojiMention ('<' :: ':' :: (name ++ ':' :: (natChars id ++ ['>'])))
      = some (name, id) := by
  have hsplit := splitFirst_no_sep h1 (natChars id ++ ['>'])
  simp only [parseEmojiMention, dropStart_cons2, hsplit, if_neg h2,
    List.getLast?_concat, List.dropLast_concat, if_pos rfl]
  have hall : (natChars id).all Char.isDigit = true := by
    rw [List.all_eq_true]
    intro c hc
    exact natChars_digit hc
  simp [natChars_ne_nil id, hall, natChars_strVal]

theorem append_sep_inj {sep : Char} :
    ∀ {a c b d : List Char}, sep ∉ a → sep ∉ c →
      a ++ sep :: b = c ++ sep :: d → a = c ∧ b = d := by
  intro a
  induction a with
  | nil =>
    intro c b d _ hc h
    cases c with
    | nil =>
      simp only [List.nil_append] at h
      exact ⟨rfl, (List.cons.injEq _ _ _ _).mp h |>.2⟩
    | cons y ys =>
      simp only [List.nil_append, List.cons_append, List.cons.injEq] at h
      exact absurd (h.1 ▸ List.mem_cons_self y ys) hc
  | cons x xs ih =>
    intro c b d ha hc h
    cases c with
    | nil =>
      simp only [List.cons_append, List.nil_append, List.cons.injEq] at h
      exact absurd (h.1 ▸ List.mem_cons_self x xs) ha
    | cons y ys =>
      simp only [List.cons_append, List.cons.injEq] at h
      obtain ⟨rfl, h2⟩ := h
      have hxs : sep ∉ xs := fun hm => ha (List.mem_cons_of_mem _ hm)
      have hys : sep ∉ ys := fun hm => hc (List.mem_cons_of_mem _ hm)
      obtain ⟨he, ht⟩ := ih hxs hys h2
      exact ⟨by rw [he], ht⟩

theorem fromReaction_custom_inj {a₁ a₂ : Bool} {id₁ id₂ : Nat} {n₁ n₂ : List Char}
    (h1 : ':' ∉ n₁) (h2 : ':' ∉ n₂)
    (h : Emoji.fromReaction (.custom a₁ id₁ (some n₁))
        = Emoji.fromReaction (.custom a₂ id₂ (some n₂))) :
    id₁ = id₂ ∧ n₁ = n₂ := by
  simp only [Emoji.fromReaction, Emoji.mk.injEq, List.cons.injEq, true_and] at h
  obtain ⟨hn, ht⟩ := append_sep_inj h1 h2 h
  have hd := congrArg List.dropLast ht
  simp only [List.dropLast_concat] at hd
  exact ⟨natChars_inj hd, hn⟩

/-! ### Lemmas about the emoji→role table -/

theorem getRole_insertRole_self : ∀ (l : RoleMap) (e : Emoji) (r : Nat),
    getRole (insertRole l e r) e = some r := by
  intro l e r
  induction l with
  | nil => simp [insertRole, getRole]
  | cons p t ih =>
    by_cases hp : p.1 = e
    · simp [insertRole, hp, getRole]
    · simp [insertRole, hp, getRole, ih]

theorem getRole_insertRole_ne : ∀ (l : RoleMap) (e' e : Emoji) (r : Nat), e' ≠ e →
    getRole (insertRole l e' r) e = getRole l e := by
  intro l e' e r hne
  induction l with
  | nil => simp [insertRole, getRole, hne]
  | cons p t ih =>
    by_cases hp : p.1 = e'
    · have hstep : insertRole (p :: t) e' r = (e', r) :: t := by simp [insertRole, hp]
      have hpne : ¬p.1 = e := by rw [hp]; exact hne
      rw [hstep]
      simp [getRole, hne, hpne]
    · have hstep : insertRole (p :: t) e' r = p :: insertRole t e' r := by
        simp [insertRole, hp]
      rw [hstep]
      by_cases hpe : p.1 = e
      · simp [getRole, hpe]
      · simp [getRole, hpe, ih]

theorem getLast?_cons_eq {α : Type} (a : α) (l : List α) :
    (a :: l).getLast? = some (match l.getLast? with | some b => b | none => a) := by
  induction l generalizing a with
  | nil => rfl
  | cons b t ih => rw [List.getLast?_cons_cons, ih b]

theorem lastWins : ∀ (pairs : List (Emoji × Nat)) (init : RoleMap) (e : Emoji),
    getRole (pairs.foldl (fun s p => insertRole s p.1 p.2) init) e
      = match (pairs.filter fun p => decide (p.1 = e)).getLast? with
        | some q => some q.2
        | none => getRole init e := by
  intro pairs
  induction pairs with
  | nil => intro init e; rfl
  | cons p rest ih =>
    intro init e
    rw [List.foldl_cons, ih]
    by_cases hpe : p.1 = e
    · subst hpe
      rw [List.filter_cons_of_pos (by simp), getLast?_cons_eq]
      cases hl : (rest.filter fun q => decide (q.1 = p.1)).getLast? with
      | some q => simp [hl]
      | none => simp [hl, getRole_insertRole_self init p.1 p.2]
    · rw [List.filter_cons_of_neg (by simp [hpe])]
      cases hl : (rest.filter fun q => decide (q.1 = e)).getLast? with
      | some q => simp [hl]
      | none => simp [hl, getRole_insertRole_ne init p.1 e p.2 hpe]

/-! ### Lemmas about the reconciler's call effects -/

theorem runDeletes : ∀ (l : List Emoji) (s : Finset Emoji),
    (l.map ApiCall.deleteOwn).foldl applyCall s = s \ l.toFinset := by
  intro l
  induction l with
  | nil => intro s; simp
  | cons a t ih =>
    intro s
    simp only [List.map_cons, List.foldl_cons, applyCall, ih]
    ext x
    simp only [Finset.mem_sdiff, Finset.mem_erase, List.mem_toFinset, List.toFinset_cons,
      Finset.mem_insert, List.mem_cons]
    tauto

theorem runReacts : ∀ (l : List Emoji) (s : Finset Emoji),
    (l.map ApiCall.react).foldl applyCall s = s ∪ l.toFinset := by
  intro l
  induction l with
  | nil => intro s; simp
  | cons a t ih =>
    intro s
    simp only [List.map_cons, List.foldl_cons, applyCall, ih]
    ext x
    simp only [Finset.mem_union, Finset.mem_insert, List.mem_toFinset, List.toFinset_cons,
      List.mem_cons]
    tauto

/-! ### Lemmas about snapshot-list removal -/

theorem findIdx?_append_cons {r : Nat} :
    ∀ (A B : List Nat) (i : Nat), r ∉ A →
      List.findIdx? (fun x => x == r) (A ++ r :: B) i = some (A.length + i) := by
  intro A
  induction A with
  | nil => intro B i _; simp
  | cons a A ih =>
    intro B i h
    have ha : (a == r) = false := by
      rw [beq_eq_false_iff_ne]
      rintro rfl
      exact h (List.mem_cons_self a A)
    simp only [List.cons_append, List.findIdx?_cons, ha, Bool.false_eq_true, if_false]
    rw [ih B (i + 1) (fun hm => h (List.mem_cons_of_mem a hm))]
    have : A.length + (i + 1) = (a :: A).length + i := by simp; omega
    rw [this]

theorem findIdx?_none {p : Nat → Bool} :
    ∀ (l : List Nat) (i : Nat), (∀ x ∈ l, p x = false) → List.findIdx? p l i = none := by
  intro l
  induction l with
  | nil => intro i _; rfl
  | cons a t ih =>
    intro i h
    simp only [List.findIdx?_cons, h a (List.mem_cons_self a t), Bool.false_eq_true, if_false]
    exact ih (i + 1) (fun x hx => h x (List.mem_cons_of_mem a hx))

theorem set_append_cons {α : Type} : ∀ (A : List α) (b : α) (B : List α) (v : α),
    (A ++ b :: B).set A.length v = A ++ v :: B := by
  intro A
  induction A with
  | nil => intro b B v; rfl
  | cons a A ih =>
    intro b B v
    simp only [List.cons_append, List.length_cons, List.set_cons_succ, ih]

theorem not_mem_swapRemove {r : Nat} {A B : List Nat}
    (hA : r ∉ A) (hB : r ∉ B) :
    r ∉ swapRemove (A ++ r :: B) A.length := by
  rcases List.eq_nil_or_concat B with rfl | ⟨C, d, rfl⟩
  · have hgl : (A ++ r :: ([] : List Nat)).getLast? = some r := by
      rw [show A ++ r :: ([] : List Nat) = A ++ [r] from rfl, List.getLast?_concat]
    simp only [swapRemove, hgl]
    rw [set_append_cons]
    rw [show A ++ r :: ([] : List Nat) = A ++ [r] from rfl, List.dropLast_concat]
    exact hA
  · simp only [List.concat_eq_append] at hB ⊢
    have hsh : A ++ r :: (C ++ [d]) = (A ++ r :: C) ++ [d] := by simp
    have hgl : (A ++ r :: (C ++ [d])).getLast? = some d := by
      rw [hsh, List.getLast?_concat]
    simp only [swapRemove, hgl]
    rw [set_append_cons]
    have hsh2 : A ++ d :: (C ++ [d]) = (A ++ d :: C) ++ [d] := by simp
    rw [hsh2, List.dropLast_concat]
    simp only [List.mem_append, List.mem_cons, List.mem_singleton, not_or] at hB
    simp only [List.mem_append, List.mem_cons, not_or]
    exact ⟨hA, hB.2.1, hB.1⟩

theorem not_mem_removeRole {r : Nat} {l : List Nat} (h : l.Nodup) :
    r ∉ removeRoleFromList r l := by
  by_cases hr : r ∈ l
  · obtain ⟨A, B, rfl⟩ := List.append_of_mem hr
    rw [List.nodup_append] at h
    have hA : r ∉ A := fun hm => h.2.2 hm (List.mem_cons_self r B)
    have hB : r ∉ B := by
      have := h.2.1
      rw [List.nodup_cons] at this
      exact this.1
    unfold removeRoleFromList
    rw [findIdx?_append_cons A B 0 hA]
    simp only [Nat.add_zero]
    exact not_mem_swapRemove hA hB
  · unfold removeRoleFromList
    rw [findIdx?_none _ _ (fun x hx => by
      rw [beq_eq_false_iff_ne]
      rintro rfl
      exact hr hx)]
    exact hr

theorem foldl_push_ne_empty (role : Nat) :
    ∀ (uws : List Nat) (us : Nat → Option (List Nat)),
      (∀ u, us u ≠ some []) →
      ∀ u, (uws.foldl
          (fun us u => fun v => if v = u then some ((us u).getD [] ++ [role]) else us v)
          us) u ≠ some [] := by
  intro uws
  induction uws with
  | nil => intro us h u; exact h u
  | cons w rest ih =>
    intro us h u
    rw [List.foldl_cons]
    apply ih
    intro v
    by_cases hv : v = w
    · simp [hv]
    · simp only [if_neg hv]
      exact h v

/-! ### Claim theorems -/

/-- C2: for every selector and every live reaction summary (whether or not
the reactions were bot-placed), assuming every emitted reaction API call
succeeds, after the reconciler's call sequence the set of bot-placed
reactions on the message equals exactly the set of the selector's emoji
keys. -/
theorem reconcile_convergence (grp : RoleMap) (rs : List MessageReaction) :
    runCalls (botPlaced rs) (apply_group_reactions grp rs)
      = (grp.map fun p => p.1).toFinset := by
  unfold runCalls apply_group_reactions botPlaced
  rw [List.foldl_append]
  rw [show ((rs.filter fun r => r.me).map fun r => ApiCall.deleteOwn r.emoji)
      = (((rs.filter fun r => r.me).map fun r => r.emoji).map ApiCall.deleteOwn) by
    rw [List.map_map]; rfl]
  rw [runDeletes, Finset.sdiff_self]
  rw [show (grp.map fun p => ApiCall.react p.1)
      = ((grp.map fun p => p.1).map ApiCall.react) by
    rw [List.map_map]; rfl]
  rw [runReacts, Finset.empty_union]

/-- C1 counterexample: with selector `{🔴 → 10}` and the bot-placed
reactions already exactly `{🔴}` (fully converged), the claim says a
further reconcile issues no reaction API calls; `apply_group_reactions`
nevertheless issues one removal and one addition. -/
theorem reconcile_noop_counterexample :
    botPlaced [⟨⟨['🔴']⟩, true⟩]
        = (([(⟨['🔴']⟩, 10)] : RoleMap).map fun p => p.1).toFinset
      ∧ apply_group_reactions [(⟨['🔴']⟩, 10)] [⟨⟨['🔴']⟩, true⟩]
        = [.deleteOwn ⟨['🔴']⟩, .react ⟨['🔴']⟩] := by
  exact ⟨by decide, by decide⟩

/-- C1 (amended): `apply_group_reactions` issues exactly one removal call
for every bot-placed reaction in the summary (stale or not) and exactly
one addition call for every key of the selector (missing or not), all
removals before all additions and no other calls; in particular, once
converged it re-issues one removal and one addition per key rather than
issuing none. -/
theorem reconcile_call_counts (grp : RoleMap) (rs : List MessageReaction) (e : Emoji) :
    ((apply_group_reactions grp rs).countP fun c => decide (c = .deleteOwn e))
        = rs.countP (fun r => r.me && decide (r.emoji = e))
  ∧ ((apply_group_reactions grp rs).countP fun c => decide (c = .react e))
        = grp.countP (fun p => decide (p.1 = e))
  ∧ (∀ c ∈ apply_group_reactions grp rs,
      (∃ r ∈ rs, r.me = true ∧ c = .deleteOwn r.emoji) ∨ ∃ p ∈ grp, c = .react p.1)
  ∧ ∃ dels adds, apply_group_reactions grp rs = dels ++ adds
      ∧ (∀ c ∈ dels, ∃ x, c = ApiCall.deleteOwn x)
      ∧ (∀ c ∈ adds, ∃ x, c = ApiCall.react x) := by
  have hdels : ∀ l : List MessageReaction,
      ((l.filter fun r => r.me).map fun r => ApiCall.deleteOwn r.emoji).countP
          (fun c => decide (c = ApiCall.deleteOwn e))
        = l.countP (fun r => r.me && decide (r.emoji = e)) := by
    intro l
    induction l with
    | nil => rfl
    | cons r t ih =>
      by_cases hme : r.me = true
      · simp [List.filter_cons, hme, List.countP_cons, ih, ApiCall.deleteOwn.injEq]
      · simp [List.filter_cons, hme, List.countP_cons, ih]
  have hreacts : ∀ l : RoleMap,
      ((l.map fun p => ApiCall.react p.1).countP fun c => decide (c = ApiCall.react e))
        = l.countP (fun p => decide (p.1 = e)) := by
    intro l
    induction l with
    | nil => rfl
    | cons p t ih => simp [List.countP_cons, ih, ApiCall.react.injEq]
  have hz1 : ((grp.map fun p => ApiCall.react p.1).countP
      fun c => decide (c = ApiCall.deleteOwn e)) = 0 := by
    rw [List.countP_eq_zero]
    intro a ha
    simp only [List.mem_map] at ha
    obtain ⟨p, _, rfl⟩ := ha
    simp
  have hz2 : (((rs.filter fun r => r.me).map fun r => ApiCall.deleteOwn r.emoji).countP
      fun c => decide (c = ApiCall.react e)) = 0 := by
    rw [List.countP_eq_zero]
    intro a ha
    simp only [List.mem_map] at ha
    obtain ⟨p, _, rfl⟩ := ha
    simp
  refine ⟨?_, ?_, ?_, ?_⟩
  · unfold apply_group_reactions
    rw [List.countP_append, hdels, hz1]
    omega
  · unfold apply_group_reactions
    rw [List.countP_append, hreacts, hz2]
    omega
  · intro c hc
    unfold apply_group_reactions at hc
    rw [List.mem_append] at hc
    rcases hc with hc | hc
    · left
      simp only [List.mem_map, List.mem_filter] at hc
      obtain ⟨r, ⟨hr, hme⟩, rfl⟩ := hc
      exact ⟨r, hr, hme, rfl⟩
    · right
      simp only [List.mem_map] at hc
      obtain ⟨p, hp, rfl⟩ := hc
      exact ⟨p, hp, rfl⟩
  · have hsplit : apply_group_reactions grp rs
        = ((rs.filter fun r => r.me).map fun r => ApiCall.deleteOwn r.emoji)
          ++ (grp.map fun p => ApiCall.react p.1) := rfl
    refine ⟨_, _, hsplit, ?_, ?_⟩
    · intro c hc
      simp only [List.mem_map] at hc
      obtain ⟨r, _, rfl⟩ := hc
      exact ⟨r.emoji, rfl⟩
    · intro c hc
      simp only [List.mem_map] at hc
      obtain ⟨p, _, rfl⟩ := hc
      exact ⟨p.1, rfl⟩

/-- C1 witness: the call-count characterization evaluated on the
converged singleton case. -/
theorem reconcile_call_counts_witness :
    (apply_group_reactions [(⟨['🔴']⟩, 10)] [⟨⟨['🔴']⟩, true⟩]).countP
        (fun c => decide (c = .deleteOwn ⟨['🔴']⟩)) = 1
  ∧ ((∃ r ∈ [(⟨⟨['🔴']⟩, true⟩ : MessageReaction)], r.me = true
        ∧ ApiCall.deleteOwn ⟨['🔴']⟩ = .deleteOwn r.emoji)
      ∨ ∃ p ∈ ([(⟨['🔴']⟩, 10)] : RoleMap), ApiCall.deleteOwn ⟨['🔴']⟩ = .react p.1) := by
  constructor
  · rw [(reconcile_call_counts [(⟨['🔴']⟩, 10)] [⟨⟨['🔴']⟩, true⟩] ⟨['🔴']⟩).1]
    decide
  · exact (reconcile_call_counts [(⟨['🔴']⟩, 10)] [⟨⟨['🔴']⟩, true⟩] ⟨['🔴']⟩).2.2.1
      (.deleteOwn ⟨['🔴']⟩) (by decide)

/-- C3 counterexample: for the store duplicated in `main.rs`, a mutation
that leaves the value unchanged still performs a file write (the spy
write-counter goes from 0 to 1), contradicting the claim's universal
no-write guarantee for value-preserving mutations. -/
theorem store_always_writes_counterexample :
    ((fun v : Nat => (v, true)) 5).1 = 5
  ∧ (MainPersistent.write (⟨5, 5, 0⟩ : MainPersistent Nat) (fun v => (v, true))).1.writes = 1 :=
  ⟨rfl, rfl⟩

/-- C3 (amended): for the `persistent.rs` store, a mutation whose result
value equals the pre-mutation value performs no file write (write counter
and on-disk document unchanged), and in every case `write` returns exactly
the value the mutation function returned; the older duplicate store in
`main.rs` also returns exactly that value, but performs a file write on
every call. -/
theorem store_write_suppression {T R : Type} [DecidableEq T]
    (p : Persistent T) (q : MainPersistent T) (f : T → T × R) :
    ((f p.value).1 = p.value →
      ((p.write f).1.writes = p.writes ∧ (p.write f).1.disk = p.disk))
  ∧ (p.write f).2 = (f p.value).2
  ∧ (q.write f).1.writes = q.writes + 1
  ∧ (q.write f).2 = (f q.value).2 := by
  refine ⟨?_, ?_, rfl, rfl⟩
  · intro h
    simp only [Persistent.write]
    rw [if_pos h.symm]
    exact ⟨rfl, rfl⟩
  · simp only [Persistent.write]
    split <;> rfl

/-- C3 witness: the suppression theorem evaluated on a concrete store and
a value-preserving mutation. -/
theorem store_write_suppression_witness :
    ((Persistent.write (⟨5, 5, 0⟩ : Persistent Nat) (fun v => (v, true))).1.writes = 0
      ∧ (Persistent.write (⟨5, 5, 0⟩ : Persistent Nat) (fun v => (v, true))).1.disk = 5)
  ∧ (Persistent.write (⟨5, 5, 0⟩ : Persistent Nat) (fun v => (v, true))).2 = true := by
  have h := store_write_suppression (⟨5, 5, 0⟩ : Persistent Nat)
    (⟨5, 5, 0⟩ : MainPersistent Nat) (fun v => (v, true))
  exact ⟨h.1 rfl, h.2.1⟩

/-- C4 counterexample: in a guild state whose user `7` holds snapshot
`[3]` while role `3` is not tracked (all snapshot lists duplicate-free, as
the claim requires), `remove_role 3` is a no-op, so user `7`'s snapshot
still contains `3` afterwards. -/
theorem tracked_role_counterexample :
    ¬ (∀ g : GuildState, (∀ u l, g.users u = some l → l.Nodup) →
        ∀ u l r, (g.remove_role r).users u = some l → r ∉ l) := by
  intro h
  have hnd : ∀ u l,
      (⟨∅, fun u => if u = 7 then some [3] else none⟩ : GuildState).users u = some l →
        l.Nodup := by
    intro u l hl
    by_cases hu : u = 7
    · simp [hu] at hl
      rw [← hl]
      decide
    · simp [hu] at hl
  have h3 : ((⟨∅, fun u => if u = 7 then some [3] else none⟩ : GuildState).remove_role 3).users 7
      = some [3] := by
    simp [GuildState.remove_role]
  exact (h _ hnd 7 [3] 3 h3) (by decide)

/-- C4 (amended): for every guild state satisfying the module's invariants
— duplicate-free snapshot lists, every snapshotted role currently tracked,
and no empty user entry — after `remove_role r` no user entry contains `r`
and no entry is empty, and after `add_role` or `set_user_roles` no user
key maps to an empty snapshot list (empty lists are purged, not stored). -/
theorem tracked_role_invariant (g : GuildState) (r newRole user : Nat)
    (uws rs : List Nat)
    (hnd : ∀ u l, g.users u = some l → l.Nodup)
    (htr : ∀ u l x, g.users u = some l → x ∈ l → x ∈ g.roles)
    (hne : ∀ u, g.users u ≠ some []) :
    (∀ u l, (g.remove_role r).users u = some l → r ∉ l)
  ∧ (∀ u, (g.remove_role r).users u ≠ some [])
  ∧ (∀ u, (g.add_role newRole uws).users u ≠ some [])
  ∧ (∀ u, (g.set_user_roles user rs).users u ≠ some []) := by
  refine ⟨?_, ?_, ?_, ?_⟩
  · intro u l hl
    unfold GuildState.remove_role at hl
    by_cases hr : r ∈ g.roles
    · rw [if_pos hr] at hl
      simp only at hl
      cases hg : g.users u with
      | none => rw [hg] at hl; simp at hl
      | some l0 =>
        rw [hg] at hl
        simp only at hl
        by_cases hemp : removeRoleFromList r l0 = []
        · rw [if_pos hemp] at hl
          simp at hl
        · rw [if_neg hemp] at hl
          have hll : l = removeRoleFromList r l0 := by
            injection hl with h
            exact h.symm
          rw [hll]
          exact not_mem_removeRole (hnd u l0 hg)
    · rw [if_neg hr] at hl
      intro hmem
      exact hr (htr u l r hl hmem)
  · intro u
    unfold GuildState.remove_role
    by_cases hr : r ∈ g.roles
    · rw [if_pos hr]
      simp only
      cases hg : g.users u with
      | none => simp [hg]
      | some l0 =>
        simp only [hg]
        split_ifs with hemp
        · simp
        · simp [hemp]
    · rw [if_neg hr]
      exact hne u
  · intro u
    unfold GuildState.add_role
    by_cases hr : newRole ∈ g.roles
    · rw [if_pos hr]
      exact hne u
    · rw [if_neg hr]
      exact foldl_push_ne_empty newRole uws g.users hne u
  · intro u
    unfold GuildState.set_user_roles
    by_cases hrs : rs = []
    · rw [if_pos hrs]
      simp only
      by_cases hu : u = user
      · simp [hu]
      · simp only [if_neg hu]
        exact hne u
    · rw [if_neg hrs]
      simp only
      by_cases hu : u = user
      · simp [hu, hrs]
      · simp only [if_neg hu]
        exact hne u

/-- C4 witness: the invariant theorem evaluated on a concrete guild state
where user `7` holds the tracked roles `[3, 5]` and role `3` is removed. -/
theorem tracked_role_invariant_witness :
    (3 : Nat) ∉ [5]
  ∧ ((⟨{3, 5}, fun u => if u = 7 then some [3, 5] else none⟩ : GuildState).remove_role 3).users 7
      = some [5] := by
  have hnd : ∀ u l,
      (⟨{3, 5}, fun u => if u = 7 then some [3, 5] else none⟩ : GuildState).users u = some l →
        l.Nodup := by
    intro u l hl
    by_cases hu : u = 7
    · simp [hu] at hl
      rw [← hl]
      decide
    · simp [hu] at hl
  have htr : ∀ u l x,
      (⟨{3, 5}, fun u => if u = 7 then some [3, 5] else none⟩ : GuildState).users u = some l →
        x ∈ l → x ∈ (⟨{3, 5}, fun u => if u = 7 then some [3, 5] else none⟩ : GuildState).roles := by
    intro u l x hl hx
    by_cases hu : u = 7
    · simp [hu] at hl
      rw [← hl] at hx
      simp at hx
      rcases hx with rfl | rfl <;> simp
    · simp [hu] at hl
  have hne : ∀ u,
      (⟨{3, 5}, fun u => if u = 7 then some [3, 5] else none⟩ : GuildState).users u ≠ some [] := by
    intro u
    by_cases hu : u = 7
    · simp [hu]
    · simp [hu]
  refine ⟨?_, by decide⟩
  exact (tracked_role_invariant
    (⟨{3, 5}, fun u => if u = 7 then some [3, 5] else none⟩ : GuildState)
    3 11 9 [] [13] hnd htr hne).1 7 [5] (by decide)

/-- C5: the selector parser processes lines independently and pairs the
first extracted role token on a line with the first extracted emoji token
on that line, custom-emoji tokens taking priority over unicode ones; a
line lacking a role token or lacking an emoji token contributes no entry;
and parsing the single line `"<@&111> 🎮 extra text"` (with an emoji table
agreeing with Unicode on the line's characters) yields a selector that
contains exactly the mapping `🎮 → 111`. -/
theorem selector_line_rule :
    (∀ ep line, (lineRoles line).head? = none → linePair ep line = none)
  ∧ (∀ ep line, (lineCustomEmoji line ++ lineUnicodeEmoji ep line).head? = none →
      linePair ep line = none)
  ∧ (∀ ep line e, (lineCustomEmoji line).head? = some e →
      (lineCustomEmoji line ++ lineUnicodeEmoji ep line).head? = some e)
  ∧ (∀ ep content, parse_group ep content = (splitLines content).filterMap (linePair ep))
  ∧ Selector.parse (fun c => c == '🎮') ("<@&111> 🎮 extra text".data)
      = [(⟨['🎮']⟩, 111)] := by
  refine ⟨?_, ?_, ?_, fun ep content => rfl, by decide⟩
  · intro ep line h
    unfold linePair
    rw [h]
  · intro ep line h
    unfold linePair
    rw [h]
    cases (lineRoles line).head? <;> rfl
  · intro ep line e h
    rw [List.head?_append, h]
    rfl

/-- C5 witness: the line rules evaluated on concrete lines: an emoji-only
line and a role-only line contribute nothing, and the claim's example line
parses to exactly `{🎮 → 111}`. -/
theorem selector_line_rule_witness :
    linePair (fun c => c == '🎮') ("🎮 only emoji".data) = none
  ∧ linePair (fun c => c == '🎮') ("<@&111> only role".data) = none
  ∧ Selector.parse (fun c => c == '🎮') ("<@&111> 🎮 extra text".data)
      = [(⟨['🎮']⟩, 111)] :=
  ⟨selector_line_rule.1 _ _ (by decide),
   selector_line_rule.2.1 _ _ (by decide),
   selector_line_rule.2.2.2.2⟩

/-- C9: when the same emoji key is produced by several lines, both
`Selector::parse` and the `track_reactions` registration path (inserting
`parse_group`'s line-ordered pairs into a fresh group) map it to the role
from the last such line — later lines silently override earlier ones. -/
theorem selector_last_write_wins (ep : Char → Bool) (content : List Char)
    (e : Emoji) (r : Nat)
    (h : ((parse_group ep content).filter fun p => decide (p.1 = e)).getLast?
      = some (e, r)) :
    getRole (Selector.parse ep content) e = some r
  ∧ getRole (trackReactionsGroup none ep content) e = some r := by
  constructor
  · unfold Selector.parse
    rw [lastWins, h]
  · unfold trackReactionsGroup
    rw [lastWins, h]

/-- C9 witness: two lines both using 😀, mapping roles 1 then 2; the
parsed selector and the registration path both map 😀 to 2. -/
theorem selector_last_write_wins_witness :
    getRole (Selector.parse (fun c => c == '😀') ("<@&1> 😀\n<@&2> 😀".data))
        (Emoji.fromReaction (.unicode ['😀'])) = some 2
  ∧ getRole (trackReactionsGroup none (fun c => c == '😀') ("<@&1> 😀\n<@&2> 😀".data))
        (Emoji.fromReaction (.unicode ['😀'])) = some 2 :=
  selector_last_write_wins _ _ _ 2 (by decide)

/-- C6 counterexample: two custom-emoji reaction payloads with the same
numeric id but different display names produce unequal identities,
contradicting the claim that the display name does not affect equality. -/
theorem emoji_identity_name_counterexample :
    Emoji.fromReaction (.custom false 123456789012345678 (some ['a']))
      ≠ Emoji.fromReaction (.custom false 123456789012345678 (some ['b'])) := by
  decide

/-- C6 (amended): identities compare by their rendered strings: two named
custom payloads are equal iff they share both the numeric id and the
display name (the animated flag never matters), two unicode payloads are
equal iff their scalar sequences are, and a unicode payload not starting
with `<` never equals a named custom payload's identity. -/
theorem emoji_identity_equality (a₁ a₂ : Bool) (id₁ id₂ : Nat)
    (n₁ n₂ s₁ s₂ : List Char) (h1 : ':' ∉ n₁) (h2 : ':' ∉ n₂) :
    ((Emoji.fromReaction (.custom a₁ id₁ (some n₁))
        = Emoji.fromReaction (.custom a₂ id₂ (some n₂))) ↔ (id₁ = id₂ ∧ n₁ = n₂))
  ∧ ((Emoji.fromReaction (.unicode s₁) = Emoji.fromReaction (.unicode s₂)) ↔ s₁ = s₂)
  ∧ (s₁.head? ≠ some '<' →
      Emoji.fromReaction (.unicode s₁) ≠ Emoji.fromReaction (.custom a₁ id₁ (some n₁))) := by
  refine ⟨⟨fun h => fromReaction_custom_inj h1 h2 h, ?_⟩, ?_, ?_⟩
  · rintro ⟨rfl, rfl⟩
    rfl
  · constructor
    · intro h
      simpa [Emoji.fromReaction, Emoji.mk.injEq] using h
    · rintro rfl
      rfl
  · intro hs h
    simp only [Emoji.fromReaction, Emoji.mk.injEq] at h
    rw [h] at hs
    simp at hs

/-- C6 witness: the equality characterization at concrete payloads: the
animated flag does not affect equality, and a unicode emoji is never equal
to a custom identity. -/
theorem emoji_identity_equality_witness :
    Emoji.fromReaction (.custom true 5 (some ['a']))
      = Emoji.fromReaction (.custom false 5 (some ['a']))
  ∧ Emoji.fromReaction (.unicode ['🎮'])
      ≠ Emoji.fromReaction (.custom true 5 (some ['a'])) := by
  have h := emoji_identity_equality true false 5 5 ['a'] ['a'] ['🎮'] [] (by decide) (by decide)
  exact ⟨h.1.mpr ⟨rfl, rfl⟩, h.2.2 (by decide)⟩

/-- C7 counterexample: an animated custom payload does not round-trip:
`from_reaction` then the conversion back yields the same custom emoji with
the animated flag cleared, not the original payload. -/
theorem emoji_roundtrip_animated_counterexample :
    Emoji.intoReactionType
        (Emoji.fromReaction (.custom true 123456789012345678 (some "abcd".data)))
      = .custom false 123456789012345678 (some "abcd".data)
  ∧ Emoji.intoReactionType
        (Emoji.fromReaction (.custom true 123456789012345678 (some "abcd".data)))
      ≠ .custom true 123456789012345678 (some "abcd".data) :=
  ⟨by decide, by decide⟩

/-- C7 (amended): the payload round trip is the identity on non-animated
custom payloads with a (`:`/`>`-free) display name and on unicode payloads
whose text does not parse as a custom mention; an animated custom payload
comes back with the animated flag cleared; and parsing a custom emoji's
textual mention yields an identity equal to the one produced from the live
reaction payload of that same emoji, whatever its animated flag. -/
theorem emoji_payload_roundtrip (a : Bool) (id : Nat) (n s : List Char)
    (hc : ':' ∉ n) (hg : '>' ∉ n) (hs : parseEmojiMention s = none) :
    Emoji.intoReactionType (Emoji.fromReaction (.custom a id (some n)))
      = .custom false id (some n)
  ∧ Emoji.intoReactionType (Emoji.fromReaction (.unicode s)) = .unicode s
  ∧ ∀ tokName tokId,
      parseEmojiMention (Emoji.fromReaction (.custom a id (some n))).chars
          = some (tokName, tokId) →
        Emoji.fromReaction (.custom false tokId (some tokName))
          = Emoji.fromReaction (.custom a id (some n)) := by
  have hparse : parseEmojiMention (Emoji.fromReaction (.custom a id (some n))).chars
      = some (n, id) := parseEmojiMention_mention hc hg
  refine ⟨?_, ?_, ?_⟩
  · unfold Emoji.intoReactionType
    rw [hparse]
  · unfold Emoji.intoReactionType
    rw [show (Emoji.fromReaction (.unicode s)).chars = s from rfl, hs]
  · intro tokName tokId htok
    rw [hparse] at htok
    injection htok with h
    injection h with ha hb
    rw [← ha, ← hb]
    rfl

/-- C7 witness: the round-trip theorem evaluated on a concrete animated
custom emoji and a concrete unicode emoji. -/
theorem emoji_payload_roundtrip_witness :
    Emoji.intoReactionType (Emoji.fromReaction (.custom true 707 (some "pets".data)))
      = .custom false 707 (some "pets".data)
  ∧ Emoji.intoReactionType (Emoji.fromReaction (.unicode ['🎮'])) = .unicode ['🎮']
  ∧ Emoji.fromReaction (.custom false 707 (some "pets".data))
      = Emoji.fromReaction (.custom true 707 (some "pets".data)) := by
  have h := emoji_payload_roundtrip true 707 "pets".data ['🎮']
    (by decide) (by decide) (by decide)
  exact ⟨h.1, h.2.1, h.2.2 "pets".data 707 (by decide)⟩

/-- C8: a rejoining user whose persisted snapshot for the guild is
`[A, B]` is granted exactly roles A and B when the bot holds the
manage-roles capability; a user with no snapshot entry, or a guild with no
state entry, triggers no role-grant calls. -/
theorem persisted_role_restore (st : State) (G U A B : Nat) (cap : Bool) :
    ((∃ g, st.guilds G = some g ∧ g.users U = some [A, B]) →
      guild_member_addition st G U true = [A, B])
  ∧ ((∃ g, st.guilds G = some g ∧ g.users U = none) →
      guild_member_addition st G U cap = [])
  ∧ (st.guilds G = none → guild_member_addition st G U cap = []) := by
  refine ⟨?_, ?_, ?_⟩
  · rintro ⟨g, hg, hu⟩
    simp [guild_member_addition, hg, hu]
  · rintro ⟨g, hg, hu⟩
    simp [guild_member_addition, hg, hu]
  · intro hg
    simp [guild_member_addition, hg]

/-- C8 witness: the restore theorem evaluated on a concrete state: user 2
of guild 1 snapshotted `[10, 20]` gets both roles back; user 3 and an
unknown guild get nothing. -/
theorem persisted_role_restore_witness :
    guild_member_addition
        ⟨fun gid => if gid = 1
          then some ⟨∅, fun u => if u = 2 then some [10, 20] else none⟩ else none⟩
        1 2 true = [10, 20]
  ∧ guild_member_addition
        ⟨fun gid => if gid = 1
          then some ⟨∅, fun u => if u = 2 then some [10, 20] else none⟩ else none⟩
        1 3 true = []
  ∧ guild_member_addition
        ⟨fun gid => if gid = 1
          then some ⟨∅, fun u => if u = 2 then some [10, 20] else none⟩ else none⟩
        9 2 true = [] := by
  refine ⟨?_, ?_, ?_⟩
  · exact (persisted_role_restore _ 1 2 10 20 true).1
      ⟨⟨∅, fun u => if u = 2 then some [10, 20] else none⟩, rfl, rfl⟩
  · exact (persisted_role_restore _ 1 3 10 20 true).2.1
      ⟨⟨∅, fun u => if u = 2 then some [10, 20] else none⟩, rfl, rfl⟩
  · exact (persisted_role_restore _ 9 2 10 20 true).2.2 rfl

/-- C10: on a registered selector message with a mapped emoji, the
reaction-remove handler revokes the role unconditionally — its output does
not depend on whether the acting member is a bot — while the reaction-add
handler grants only when the member is not a bot; the bot check exists
only on the add path. -/
theorem reaction_toggle_bot_check (registry : Nat → Option RoleMap)
    (G U msg : Nat) (rt : ReactionType) (grp : RoleMap) (role : Nat) (isBot : Bool)
    (hreg : registry msg = some grp)
    (hrole : getRole grp (Emoji.fromReaction rt) = some role) :
    remove_reaction registry (some G) (some U) msg rt isBot = [.revoke role]
  ∧ remove_reaction registry (some G) (some U) msg rt true
      = remove_reaction registry (some G) (some U) msg rt false
  ∧ add_reaction registry (some G) (some U) msg rt true = []
  ∧ add_reaction registry (some G) (some U) msg rt false = [.grant role] := by
  refine ⟨?_, ?_, ?_, ?_⟩ <;>
    simp [remove_reaction, add_reaction, hreg, hrole]

/-- C10 witness: the handlers evaluated on a concrete registry: removing
🔴 revokes role 10 even for a bot member, while adding 🔴 as a bot grants
nothing and as a non-bot grants role 10. -/
theorem reaction_toggle_bot_check_witness :
    remove_reaction (fun m => if m = 1 then some [(⟨['🔴']⟩, 10)] else none)
        (some 4) (some 2) 1 (.unicode ['🔴']) true = [.revoke 10]
  ∧ add_reaction (fun m => if m = 1 then some [(⟨['🔴']⟩, 10)] else none)
        (some 4) (some 2) 1 (.unicode ['🔴']) true = []
  ∧ add_reaction (fun m => if m = 1 then some [(⟨['🔴']⟩, 10)] else none)
        (some 4) (some 2) 1 (.unicode ['🔴']) false = [.grant 10] := by
  have h := reaction_toggle_bot_check
    (fun m => if m = 1 then some [(⟨['🔴']⟩, 10)] else none)
    4 2 1 (.unicode ['🔴']) [(⟨['🔴']⟩, 10)] 10 true rfl (by decide)
  exact ⟨h.1, h.2.2.1, h.2.2.2⟩

end Mossy
